import Mathlib

/-!
Verification of the tile-pipeline engine of the wsic repository
(src/wsic/readers.py), as a shallow embedding in Lean 4.

The embedding models:
 * `get_tile` — the worker task that reads one clipped tile from the source
   and publishes `(coordinate, tile)` on the result channel;
 * `MultiProcessTileIterator` — the coordinating state machine: its
   constructor (`MPTI.init`), `__iter__` (`MPTI.iter`), `__next__`
   (`MPTI.nextCall`, with the inner busy-wait loop given explicit fuel),
   `empty_queue` and `fill_queue`, and the optional intermediate store.

Pixels are natural numbers (sample values); frames and tiles carry explicit
height/width/channel bounds and a lookup function.  The multiprocessing
queue is modelled by an adversarial arrival schedule: at the k-th call of
`empty_queue` the schedule proposes a batch of coordinates, filtered to
those that are actually in flight (dispatched, not yet arrived, and whose
worker did not die), which covers every fetch-completion order the real
queue can exhibit.  Worker death (`cfg.failures`) models a fetch task whose
read raises: such a task never puts anything on the queue.
-/

set_option maxRecDepth 10000

namespace Wsic

/-- A dense rectangular pixel block: height, width and a sample lookup
taking (row offset, column offset, channel). -/
structure Tile where
  h : ℕ
  w : ℕ
  px : ℕ → ℕ → ℕ → ℕ

/-- The source image frame, as exposed by `Reader.shape` and windowed reads
`reader[index]`: shape (H, W, C) and pixel contents. -/
structure Frame where
  H : ℕ
  W : ℕ
  C : ℕ
  px : ℕ → ℕ → ℕ → ℕ

/-- Natural-number ceiling division, the value of `int(np.ceil(a / b))` for
naturals `a` and positive `b` (lines 138-145 of readers.py). -/
def ceilDivNat (a b : ℕ) : ℕ := (a + b - 1) / b

/-- Model of `int(np.ceil(h / t))` over the integers, exactly as Python
evaluates it for an arbitrary (possibly negative) tile dimension `t`:
division by zero is an error (`none`); otherwise the exact mathematical
ceiling of `h / t` (np.ceil of the quotient, then truncation by `int`,
which is exact on an integral value). -/
def gridDimZ (h t : ℤ) : Option ℤ :=
  if t = 0 then none else some ⌈(h : ℚ) / (t : ℚ)⌉

/-- Static configuration of a pipeline run: the source frame, the two tile
sizes (width, height) as in the Python tuples, the resolved worker count,
whether an intermediate store is configured, and which worker tasks die
with a read error before publishing their result. -/
structure Cfg where
  frame : Frame
  read_tile_size : ℕ × ℕ
  yield_tile_size : ℕ × ℕ
  num_workers : ℕ
  useIntermediate : Bool
  failures : ℕ × ℕ → Bool

/-- Read-grid dimensions `(rows, cols)`; readers.py lines 138-141:
`ceil(H / read_tile_size[1]), ceil(W / read_tile_size[0])`. -/
def read_tiles_shape (cfg : Cfg) : ℕ × ℕ :=
  (ceilDivNat cfg.frame.H cfg.read_tile_size.2,
   ceilDivNat cfg.frame.W cfg.read_tile_size.1)

/-- Yield-grid dimensions `(rows, cols)`; readers.py lines 142-145. -/
def yield_tile_shape (cfg : Cfg) : ℕ × ℕ :=
  (ceilDivNat cfg.frame.H cfg.yield_tile_size.2,
   ceilDivNat cfg.frame.W cfg.yield_tile_size.1)

/-- Row-major enumeration of an `rows × cols` grid, the order produced by
`np.ndindex` (readers.py line 146) and the order in which tiles are
yielded. -/
def rowMajorList (rows cols : ℕ) : List (ℕ × ℕ) :=
  (List.range (rows * cols)).map fun n => (n / cols, n % cols)

/-- Model of the worker task `get_tile` (readers.py lines 51-84): read the
tile at grid coordinate `ji = (j, i)` with the read tile size, clipped to
the frame boundary (numpy slicing past the edge clips). -/
def get_tile (cfg : Cfg) (ji : ℕ × ℕ) : Tile :=
  let tw := cfg.read_tile_size.1
  let th := cfg.read_tile_size.2
  { h := min ((ji.1 + 1) * th) cfg.frame.H - ji.1 * th
    w := min ((ji.2 + 1) * tw) cfg.frame.W - ji.2 * tw
    px := fun dy dx c => cfg.frame.px (ji.1 * th + dy) (ji.2 * tw + dx) c }

/-- Mutable state of a `MultiProcessTileIterator` (readers.py lines
124-146): the pending set `enqueued`, the key set of `reordering_dict`
(tile values are recovered deterministically via `get_tile`), the read and
yield cursors, the remaining read-grid coordinates, the intermediate store
contents (absolute pixel coordinates; initially all zero), and the number
of `empty_queue` drains performed so far (used to index the arrival
schedule). -/
structure State where
  enqueued : Finset (ℕ × ℕ)
  reordering : Finset (ℕ × ℕ)
  read_j : ℕ
  read_i : ℕ
  yield_j : ℕ
  yield_i : ℕ
  remaining_reads : List (ℕ × ℕ)
  inter : ℕ → ℕ → ℕ → ℕ
  drainCount : ℕ

/-- An arrival schedule: for each drain of the result channel, the batch of
coordinates the adversary proposes as having completed. -/
def Schedule : Type := ℕ → List (ℕ × ℕ)

namespace MPTI

/-- The freshly constructed iterator state (readers.py lines 130-146). -/
def initState (cfg : Cfg) : State :=
  { enqueued := ∅
    reordering := ∅
    read_j := 0
    read_i := 0
    yield_j := 0
    yield_i := 0
    remaining_reads :=
      rowMajorList (read_tiles_shape cfg).1 (read_tiles_shape cfg).2
    inter := fun _ _ _ => 0
    drainCount := 0 }

/-- Read-cursor wraparound at the top of `__next__` (lines 170-172). -/
def wrapRead (cfg : Cfg) (s : State) : State :=
  if (read_tiles_shape cfg).2 ≤ s.read_i then
    { s with read_i := 0, read_j := s.read_j + 1 }
  else s

/-- Yield-cursor wraparound at the top of `__next__` (lines 178-180). -/
def wrapYield (cfg : Cfg) (s : State) : State :=
  if (yield_tile_shape cfg).2 ≤ s.yield_i then
    { s with yield_i := 0, yield_j := s.yield_j + 1 }
  else s

/-- Model of `empty_queue` (lines 240-244): move every result currently on
the channel into the reordering map.  The schedule batch is filtered to the
coordinates the real channel could actually contain: dispatched
(`∈ enqueued`), not already arrived (`∉ reordering`), and whose worker did
not die before publishing. -/
def empty_queue (cfg : Cfg) (sched : Schedule) (s : State) : State :=
  let batch := (sched s.drainCount).filter fun ji =>
    decide (ji ∈ s.enqueued) && !(decide (ji ∈ s.reordering))
      && !(cfg.failures ji)
  { s with reordering := s.reordering ∪ batch.toFinset
           drainCount := s.drainCount + 1 }

/-- Helper for `fill_queue`: dispatch coordinates from the front of the
remaining-reads list while the pending set is below the worker budget. -/
def fillAux (budget : ℕ) :
    List (ℕ × ℕ) → Finset (ℕ × ℕ) → List (ℕ × ℕ) × Finset (ℕ × ℕ)
  | [], enq => ([], enq)
  | ji :: rest, enq =>
      if enq.card < budget then fillAux budget rest (insert ji enq)
      else (ji :: rest, enq)

/-- Model of `fill_queue` (lines 246-260): start worker tasks until the
maximum number of workers is reached or no reads remain. -/
def fill_queue (cfg : Cfg) (s : State) : State :=
  let p := fillAux cfg.num_workers s.remaining_reads s.enqueued
  { s with remaining_reads := p.1, enqueued := p.2 }

/-- Write a popped read tile into the intermediate store at its absolute
offset, clipped to the tile actual shape (lines 204-214; the write index
uses the read cursor and `tile.shape`). -/
def writeTile (cfg : Cfg) (s : State) (t : Tile) : State :=
  let tw := cfg.read_tile_size.1
  let th := cfg.read_tile_size.2
  { s with inter := fun y x c =>
      if s.read_j * th ≤ y ∧ y < s.read_j * th + t.h
          ∧ s.read_i * tw ≤ x ∧ x < s.read_i * tw + t.w then
        t.px (y - s.read_j * th) (x - s.read_i * tw) c
      else s.inter y x c }

/-- The window of the intermediate store at the current yield-grid
coordinate (lines 219-229); the intermediate has the frame shape, so the
slice clips to the frame boundary. -/
def windowTile (cfg : Cfg) (s : State) : Tile :=
  let yw := cfg.yield_tile_size.1
  let yh := cfg.yield_tile_size.2
  { h := min ((s.yield_j + 1) * yh) cfg.frame.H - s.yield_j * yh
    w := min ((s.yield_i + 1) * yw) cfg.frame.W - s.yield_i * yw
    px := fun dy dx c => s.inter (s.yield_j * yh + dy) (s.yield_i * yw + dx) c }

/-- Model of `np.count_nonzero(tile) > 0` (line 230): does the window hold
at least one non-zero sample. -/
def countNonzeroPos (t : Tile) (channels : ℕ) : Bool :=
  (List.range t.h).any fun dy =>
    (List.range t.w).any fun dx =>
      (List.range channels).any fun c => t.px dy dx c != 0

/-- Result of one iteration of the inner busy-wait loop of `__next__`:
either a tile is returned (with the yield-grid coordinate it is yielded
at), or the loop continues with an updated state. -/
inductive StepRes where
  | ret (c : ℕ × ℕ) (t : Tile) (s : State)
  | cont (s : State)

/-- The attempt, lines 217-232, to return the next tile from the
intermediate: if the window at the current yield coordinate passes the
non-zero test, advance the yield cursor and return it; otherwise keep the
queue full and go round the loop again. -/
def windowCheck (cfg : Cfg) (s : State) : StepRes :=
  let t := windowTile cfg s
  if countNonzeroPos t cfg.frame.C then
    .ret (s.yield_j, s.yield_i) t { s with yield_i := s.yield_i + 1 }
  else .cont (fill_queue cfg s)

/-- One iteration of the `while True` loop of `__next__` (lines 188-238):
drain the channel; if the read-cursor tile has arrived, consume it (return
it directly without an intermediate, or write it to the intermediate and
advance the read cursor); with an intermediate, then try the yield window;
otherwise keep the queue full and loop. -/
def stepOnce (cfg : Cfg) (sched : Schedule) (s : State) : StepRes :=
  let s1 := empty_queue cfg sched s
  if (s1.read_j, s1.read_i) ∈ s1.reordering then
    let t := get_tile cfg (s1.read_j, s1.read_i)
    let s2 := { s1 with
      enqueued := s1.enqueued.erase (s1.read_j, s1.read_i)
      reordering := s1.reordering.erase (s1.read_j, s1.read_i) }
    if cfg.useIntermediate then
      let s3 := { writeTile cfg s2 t with read_i := s2.read_i + 1 }
      windowCheck cfg s3
    else
      .ret (s2.yield_j, s2.yield_i) t
        { s2 with read_i := s2.read_i + 1, yield_i := s2.yield_i + 1 }
  else
    if cfg.useIntermediate then windowCheck cfg s1
    else .cont (fill_queue cfg s1)

/-- Result of one call of `__next__`: a yielded tile, `StopIteration`, or
fuel exhaustion of the inner busy-wait loop (the loop in the code would
still be spinning). -/
inductive NextRes where
  | yielded (c : ℕ × ℕ) (t : Tile) (s : State)
  | stopped
  | stalled

/-- The inner busy-wait loop of `__next__`, fuel-bounded. -/
def innerLoop (cfg : Cfg) (sched : Schedule) : ℕ → State → NextRes
  | 0, _ => .stalled
  | m + 1, s =>
      match stepOnce cfg sched s with
      | .ret c t s' => .yielded c t s'
      | .cont s' => innerLoop cfg sched m s'

/-- Model of one call of `__next__` (lines 167-238): wrap the read and
yield cursors, raise `StopIteration` once the yield cursor has passed the
last yield-grid row, otherwise fill the queue and run the inner loop. -/
def nextCall (cfg : Cfg) (sched : Schedule) (fuel : ℕ) (s : State) : NextRes :=
  let sR := wrapRead cfg s
  let sY := wrapYield cfg sR
  if (yield_tile_shape cfg).1 ≤ sY.yield_j then .stopped
  else innerLoop cfg sched fuel (fill_queue cfg sY)

/-- Drive the iterator: repeatedly call `__next__`, collecting the yielded
(coordinate, tile) pairs; the boolean records whether the iteration reached
`StopIteration` (`true`) or ran out of fuel mid-wait (`false`). -/
def runAux (cfg : Cfg) (sched : Schedule) : ℕ → State → List ((ℕ × ℕ) × Tile) × Bool
  | 0, _ => ([], false)
  | n + 1, s =>
      match nextCall cfg sched n s with
      | .stopped => ([], true)
      | .stalled => ([], false)
      | .yielded c t s' =>
          let r := runAux cfg sched n s'
          ((c, t) :: r.1, r.2)

/-- Model of `__iter__` (lines 161-165): reset the read cursor only. -/
def iter (s : State) : State := { s with read_j := 0, read_i := 0 }

/-- Errors `__init__` can raise: `ZeroDivisionError` from the grid-shape
computation (lines 138-145) when a tile dimension is zero, and the
`ValueError` of lines 149-155 when the tile sizes differ without an
intermediate. -/
inductive InitError where
  | zeroDiv
  | badConfig
deriving DecidableEq

/-- Model of `MultiProcessTileIterator.__init__` (lines 114-155): default
the yield tile size to the read tile size, compute the grid shapes (zero
tile dimensions raise there, before validation), then validate that equal
tile sizes or an intermediate store is configured.  A raised error means no
object is returned at all, which `Except` captures. -/
def init (frame : Frame) (read_tile_size : ℕ × ℕ)
    (yield_tile_size : Option (ℕ × ℕ)) (num_workers : ℕ)
    (useIntermediate : Bool) (failures : ℕ × ℕ → Bool) :
    Except InitError (Cfg × State) :=
  let yts := yield_tile_size.getD read_tile_size
  if read_tile_size.2 = 0 ∨ read_tile_size.1 = 0 ∨ yts.2 = 0 ∨ yts.1 = 0 then
    .error .zeroDiv
  else
    let cfg : Cfg :=
      { frame := frame
        read_tile_size := read_tile_size
        yield_tile_size := yts
        num_workers := num_workers
        useIntermediate := useIntermediate
        failures := failures }
    if read_tile_size ≠ yts ∧ useIntermediate = false then .error .badConfig
    else .ok (cfg, initState cfg)

/-- States reachable during an iteration: the freshly constructed state,
closed under every operation the pipeline performs on its own state. -/
inductive Reachable (cfg : Cfg) (sched : Schedule) : State → Prop
  | init : Reachable cfg sched (initState cfg)
  | wrapR {s} : Reachable cfg sched s → Reachable cfg sched (wrapRead cfg s)
  | wrapY {s} : Reachable cfg sched s → Reachable cfg sched (wrapYield cfg s)
  | fill {s} : Reachable cfg sched s → Reachable cfg sched (fill_queue cfg s)
  | drain {s} : Reachable cfg sched s →
      Reachable cfg sched (empty_queue cfg sched s)
  | stepRet {s c t s'} : Reachable cfg sched s →
      stepOnce cfg sched s = .ret c t s' → Reachable cfg sched s'
  | stepCont {s s'} : Reachable cfg sched s →
      stepOnce cfg sched s = .cont s' → Reachable cfg sched s'

/-- Linear position of the yield cursor in the row-major order of the
yield grid. -/
def yIdx (cfg : Cfg) (s : State) : ℕ :=
  s.yield_j * (yield_tile_shape cfg).2 + s.yield_i

/-- Tail of the row-major enumeration starting at linear position `k`. -/
def enumFrom (rows cols k : ℕ) : List (ℕ × ℕ) :=
  (List.range' k (rows * cols - k)).map fun n => (n / cols, n % cols)

/-- Observation helper: did a step return a tile. -/
def StepRes.isRet : StepRes → Bool
  | .ret _ _ _ => true
  | .cont _ => false

/-- Observation helper: the state a step leaves behind. -/
def StepRes.state : StepRes → State
  | .ret _ _ s => s
  | .cont s => s

/-- Observation helper: did a `__next__` call raise `StopIteration`. -/
def NextRes.isStopped : NextRes → Bool
  | .stopped => true
  | _ => false

end MPTI

/-! ### Concrete instances used by witnesses and counterexamples -/

/-- A 1×2-pixel frame read with 1×1 tiles and two workers, no
intermediate: both read coordinates are dispatched on the first fill. -/
def cfgBoth : Cfg :=
  { frame := { H := 1, W := 2, C := 1, px := fun _ _ _ => 1 }
    read_tile_size := (1, 1)
    yield_tile_size := (1, 1)
    num_workers := 2
    useIntermediate := false
    failures := fun _ => false }

/-- Completion order in which the second tile (0,1) arrives before the
first (0,0): its result is drained while (0,0) is still awaited. -/
def schedBoth : Schedule := fun k => if k = 0 then [(0, 1)] else []

/-- The state reached inside the first `__next__` call right after the
first drain: (0,1) has arrived out of order. -/
def sBoth : State :=
  MPTI.empty_queue cfgBoth schedBoth
    (MPTI.fill_queue cfgBoth
      (MPTI.wrapYield cfgBoth (MPTI.wrapRead cfgBoth (MPTI.initState cfgBoth))))

/-- A 2×3×1 frame with 2×2 tiles (equal read and yield sizes, a non-exact
multiple on the column axis), two workers, all results available at every
drain. -/
def cfgRM : Cfg :=
  { frame := { H := 2, W := 3, C := 1, px := fun y x _ => y * 3 + x + 1 }
    read_tile_size := (2, 2)
    yield_tile_size := (2, 2)
    num_workers := 2
    useIntermediate := false
    failures := fun _ => false }

/-- Schedule that always offers both read coordinates. -/
def schedRM : Schedule := fun _ => [(0, 0), (0, 1)]

/-- Default entry used for out-of-range list indexing. -/
def dummyEntry : (ℕ × ℕ) × Tile :=
  ((0, 0), { h := 0, w := 0, px := fun _ _ _ => 0 })

/-- A 1×2×1 frame with samples (1, 2), read tiles 1×1, yield tiles 2×1,
intermediate store configured. -/
def cfgRT : Cfg :=
  { frame := { H := 1, W := 2, C := 1, px := fun _ x _ => x + 1 }
    read_tile_size := (1, 1)
    yield_tile_size := (2, 1)
    num_workers := 2
    useIntermediate := true
    failures := fun _ => false }

/-- Completion order in which read tile (0,0) arrives promptly and (0,1)
is slow (never needed: the run finishes first). -/
def schedRT : Schedule := fun k => if k = 0 then [(0, 0)] else []

/-- State with a half-written intermediate: sample (0,0,0) is 1, all
others 0; this is exactly the intermediate contents the `cfgRT` run sees
after writing read tile (0,0) and before (0,1) arrives. -/
def sWC : State :=
  { MPTI.initState cfgRT with
      inter := fun y x c => if y = 0 ∧ x = 0 ∧ c = 0 then 1 else 0 }

/-- A 1×1×1 frame whose single fetch task dies with a read error: the
worker raises before putting anything on the result channel
(`get_tile` has no exception handling, and an exception in a bare
`multiprocessing.Process` target never reaches the parent). -/
def cfgFail : Cfg :=
  { frame := { H := 1, W := 1, C := 1, px := fun _ _ _ => 1 }
    read_tile_size := (1, 1)
    yield_tile_size := (1, 1)
    num_workers := 1
    useIntermediate := false
    failures := fun ji => decide (ji = (0, 0)) }


/-! ### Arithmetic facts about the grid-shape computation -/

theorem ceilDivNat_ge (a b : ℕ) (hb : 0 < b) : a ≤ ceilDivNat a b * b := by
  unfold ceilDivNat
  rw [Nat.mul_comm]
  have hmod := Nat.div_add_mod (a + b - 1) b
  have hlt : (a + b - 1) % b < b := Nat.mod_lt _ hb
  omega

theorem ceilDivNat_pred_lt (a b : ℕ) (hb : 0 < b) :
    ((ceilDivNat a b : ℤ) - 1) * b < a := by
  have key : b * ceilDivNat a b < a + b := by
    unfold ceilDivNat
    have hmod := Nat.div_add_mod (a + b - 1) b
    have hlt : (a + b - 1) % b < b := Nat.mod_lt _ hb
    omega
  have keyZ : (b : ℤ) * (ceilDivNat a b : ℤ) < (a : ℤ) + b := by exact_mod_cast key
  have expand : ((ceilDivNat a b : ℤ) - 1) * b
      = (b : ℤ) * (ceilDivNat a b : ℤ) - b := by ring
  rw [expand]
  linarith

theorem ceilDivNat_le_of_le (a b m : ℕ) (hb : 0 < b) (h : a ≤ m * b) :
    ceilDivNat a b ≤ m := by
  unfold ceilDivNat
  rw [Nat.div_le_iff_le_mul_add_pred hb]
  rw [Nat.mul_comm] at h
  omega

/-- C8. For every frame shape (H, W, C) and positive tile dimensions
(width, height), the grid shapes computed at construction (readers.py
lines 138-145) are exactly the per-axis ceilings: on each axis the
computed count `n` satisfies `n * tile ≥ extent`, `(n - 1) * tile < extent`
(over ℤ, so that an empty axis is covered too), and `n` is the least
count covering the extent — which characterises `n = ceil(extent / tile)`.
This holds for the read grid and the yield grid. -/
theorem grid_shape_is_ceiling (cfg : Cfg)
    (hrw : 0 < cfg.read_tile_size.1) (hrh : 0 < cfg.read_tile_size.2)
    (hyw : 0 < cfg.yield_tile_size.1) (hyh : 0 < cfg.yield_tile_size.2) :
    (cfg.frame.H ≤ (read_tiles_shape cfg).1 * cfg.read_tile_size.2
      ∧ (((read_tiles_shape cfg).1 : ℤ) - 1) * cfg.read_tile_size.2 < cfg.frame.H
      ∧ ∀ m, cfg.frame.H ≤ m * cfg.read_tile_size.2 → (read_tiles_shape cfg).1 ≤ m)
    ∧ (cfg.frame.W ≤ (read_tiles_shape cfg).2 * cfg.read_tile_size.1
      ∧ (((read_tiles_shape cfg).2 : ℤ) - 1) * cfg.read_tile_size.1 < cfg.frame.W
      ∧ ∀ m, cfg.frame.W ≤ m * cfg.read_tile_size.1 → (read_tiles_shape cfg).2 ≤ m)
    ∧ (cfg.frame.H ≤ (yield_tile_shape cfg).1 * cfg.yield_tile_size.2
      ∧ (((yield_tile_shape cfg).1 : ℤ) - 1) * cfg.yield_tile_size.2 < cfg.frame.H
      ∧ ∀ m, cfg.frame.H ≤ m * cfg.yield_tile_size.2 → (yield_tile_shape cfg).1 ≤ m)
    ∧ (cfg.frame.W ≤ (yield_tile_shape cfg).2 * cfg.yield_tile_size.1
      ∧ (((yield_tile_shape cfg).2 : ℤ) - 1) * cfg.yield_tile_size.1 < cfg.frame.W
      ∧ ∀ m, cfg.frame.W ≤ m * cfg.yield_tile_size.1 → (yield_tile_shape cfg).2 ≤ m) :=
  ⟨⟨ceilDivNat_ge _ _ hrh, ceilDivNat_pred_lt _ _ hrh,
    fun m => ceilDivNat_le_of_le _ _ m hrh⟩,
   ⟨ceilDivNat_ge _ _ hrw, ceilDivNat_pred_lt _ _ hrw,
    fun m => ceilDivNat_le_of_le _ _ m hrw⟩,
   ⟨ceilDivNat_ge _ _ hyh, ceilDivNat_pred_lt _ _ hyh,
    fun m => ceilDivNat_le_of_le _ _ m hyh⟩,
   ⟨ceilDivNat_ge _ _ hyw, ceilDivNat_pred_lt _ _ hyw,
    fun m => ceilDivNat_le_of_le _ _ m hyw⟩⟩

/-- Bridge between the two models of the grid-dimension computation: on a
natural extent and a positive natural tile dimension, the exact-ceiling
integer model agrees with the natural ceiling division used in the
embedded constructor. -/
theorem gridDimZ_eq_ceilDivNat (a b : ℕ) (hb : 0 < b) :
    gridDimZ a b = some (ceilDivNat a b) := by
  have hbQ : (0 : ℚ) < (b : ℚ) := by exact_mod_cast hb
  have hbz : (b : ℤ) ≠ 0 := by exact_mod_cast hb.ne'
  unfold gridDimZ
  rw [if_neg hbz]
  congr 1
  have hcast : (((a : ℤ) : ℚ)) / (((b : ℤ) : ℚ)) = (a : ℚ) / (b : ℚ) := by
    push_cast
    ring
  rw [hcast, Int.ceil_eq_iff]
  constructor
  · rw [lt_div_iff₀ hbQ]
    have := ceilDivNat_pred_lt a b hb
    exact_mod_cast this
  · rw [div_le_iff₀ hbQ]
    have := ceilDivNat_ge a b hb
    exact_mod_cast this

/-- C9 counterexample: the claim says the grid computation fails on every
non-positive tile dimension, but a negative tile dimension is not
rejected: for extent 10 and tile dimension -2 the computation succeeds and
produces the grid dimension -5 (Python: `int(np.ceil(10 / -2)) == -5`). -/
theorem gridDimZ_negative_not_rejected :
    gridDimZ 10 (-2) = some (-5) ∧ gridDimZ 10 (-2) ≠ none := by
  have hval : gridDimZ 10 (-2) = some (-5) := by
    unfold gridDimZ
    rw [if_neg (by norm_num)]
    congr 1
    have h5 : ((10 : ℤ) : ℚ) / ((-2 : ℤ) : ℚ) = ((-5 : ℤ) : ℚ) := by norm_num
    rw [h5, Int.ceil_intCast]
  exact ⟨hval, by rw [hval]; simp⟩

/-- C9 amended: the tile-grid computation is pure and fails exactly on
tile dimension zero (Python `ZeroDivisionError`); negative tile dimensions
are not rejected.  On the actual domain (natural extents, positive tile
dimensions) it agrees with the constructor's `ceilDivNat`. -/
theorem gridDimZ_fails_iff_zero :
    (∀ h t : ℤ, gridDimZ h t = none ↔ t = 0)
    ∧ (∀ a b : ℕ, 0 < b → gridDimZ a b = some (ceilDivNat a b)) := by
  constructor
  · intro h t
    unfold gridDimZ
    split_ifs with ht
    · simp [ht]
    · simp [ht]
  · exact fun a b hb => gridDimZ_eq_ceilDivNat a b hb

/-- C9 amended witness: concrete evaluations of both parts. -/
theorem gridDimZ_fails_iff_zero_witness :
    (gridDimZ 7 0 = none) ∧ (0 < 2 ∧ gridDimZ 7 2 = some (ceilDivNat 7 2)) :=
  ⟨(gridDimZ_fails_iff_zero.1 7 0).mpr rfl,
   ⟨by decide, gridDimZ_fails_iff_zero.2 7 2 (by decide)⟩⟩

/-! ### Structural lemmas about the pipeline operations -/

namespace MPTI

theorem wrapRead_enqueued (cfg : Cfg) (s : State) :
    (wrapRead cfg s).enqueued = s.enqueued := by
  unfold wrapRead
  split_ifs <;> rfl

theorem wrapRead_reordering (cfg : Cfg) (s : State) :
    (wrapRead cfg s).reordering = s.reordering := by
  unfold wrapRead
  split_ifs <;> rfl

theorem wrapYield_enqueued (cfg : Cfg) (s : State) :
    (wrapYield cfg s).enqueued = s.enqueued := by
  unfold wrapYield
  split_ifs <;> rfl

theorem wrapYield_reordering (cfg : Cfg) (s : State) :
    (wrapYield cfg s).reordering = s.reordering := by
  unfold wrapYield
  split_ifs <;> rfl

theorem fillAux_enqueued_subset (budget : ℕ) :
    ∀ (l : List (ℕ × ℕ)) (enq : Finset (ℕ × ℕ)),
      enq ⊆ (fillAux budget l enq).2
  | [], enq => by unfold fillAux; exact Finset.Subset.refl enq
  | ji :: rest, enq => by
      unfold fillAux
      split_ifs
      · exact (Finset.subset_insert ji enq).trans
          (fillAux_enqueued_subset budget rest (insert ji enq))
      · exact Finset.Subset.refl enq

theorem fillAux_card_le (budget : ℕ) :
    ∀ (l : List (ℕ × ℕ)) (enq : Finset (ℕ × ℕ)),
      enq.card ≤ budget → ((fillAux budget l enq).2).card ≤ budget
  | [], enq => fun h => h
  | ji :: rest, enq => by
      intro h
      unfold fillAux
      split_ifs with hlt
      · exact fillAux_card_le budget rest (insert ji enq)
          ((Finset.card_insert_le ji enq).trans (by omega))
      · exact h

theorem fill_queue_enqueued_superset (cfg : Cfg) (s : State) :
    s.enqueued ⊆ (fill_queue cfg s).enqueued :=
  fillAux_enqueued_subset cfg.num_workers s.remaining_reads s.enqueued

theorem fill_queue_card_le (cfg : Cfg) (s : State)
    (h : s.enqueued.card ≤ cfg.num_workers) :
    (fill_queue cfg s).enqueued.card ≤ cfg.num_workers :=
  fillAux_card_le cfg.num_workers s.remaining_reads s.enqueued h

theorem fill_queue_reordering (cfg : Cfg) (s : State) :
    (fill_queue cfg s).reordering = s.reordering := rfl

theorem empty_queue_enqueued (cfg : Cfg) (sched : Schedule) (s : State) :
    (empty_queue cfg sched s).enqueued = s.enqueued := rfl

@[simp] theorem writeTile_enqueued (cfg : Cfg) (s : State) (t : Tile) :
    (writeTile cfg s t).enqueued = s.enqueued := rfl

@[simp] theorem writeTile_reordering (cfg : Cfg) (s : State) (t : Tile) :
    (writeTile cfg s t).reordering = s.reordering := rfl

/-- Invariant transfer through the intermediate-window attempt: whatever
relation held between the map and the pending set still holds in the state
it leaves behind (it touches only the yield cursor, or fills the queue). -/
theorem windowCheck_reordering_subset (cfg : Cfg) (s : State)
    (h : s.reordering ⊆ s.enqueued) :
    ((windowCheck cfg s).state).reordering
      ⊆ ((windowCheck cfg s).state).enqueued := by
  unfold windowCheck
  dsimp only
  split_ifs
  · exact h
  · exact h.trans (fill_queue_enqueued_superset cfg s)

theorem windowCheck_card_le (cfg : Cfg) (s : State)
    (h : s.enqueued.card ≤ cfg.num_workers) :
    ((windowCheck cfg s).state).enqueued.card ≤ cfg.num_workers := by
  unfold windowCheck
  dsimp only
  split_ifs
  · exact h
  · exact fill_queue_card_le cfg s h

/-- Coordinates drained from the channel were all dispatched: the channel
can only hold results whose worker task was started. -/
theorem empty_queue_reordering_subset (cfg : Cfg) (sched : Schedule)
    (s : State) (h : s.reordering ⊆ s.enqueued) :
    (empty_queue cfg sched s).reordering ⊆ (empty_queue cfg sched s).enqueued := by
  rw [empty_queue_enqueued]
  unfold empty_queue
  intro ji hji
  simp only [Finset.mem_union, List.mem_toFinset, List.mem_filter] at hji
  rcases hji with hji | ⟨_, hji⟩
  · exact h hji
  · simp only [Bool.and_eq_true, decide_eq_true_eq] at hji
    exact hji.1.1

/-- The state left by one iteration of the inner loop keeps every
reordering-map key inside the pending set. -/
theorem stepOnce_reordering_subset (cfg : Cfg) (sched : Schedule) (s : State)
    (h : s.reordering ⊆ s.enqueued) :
    ((stepOnce cfg sched s).state).reordering
      ⊆ ((stepOnce cfg sched s).state).enqueued := by
  have h1 := empty_queue_reordering_subset cfg sched s h
  unfold stepOnce
  dsimp only
  split_ifs with hmem hint hint
  · exact windowCheck_reordering_subset cfg _
      (by simpa using Finset.erase_subset_erase _ h1)
  · exact Finset.erase_subset_erase _ h1
  · exact windowCheck_reordering_subset cfg _ h1
  · exact h1.trans (fill_queue_enqueued_superset cfg _)

/-- The state left by one iteration of the inner loop keeps the pending
set within the worker budget. -/
theorem stepOnce_card_le (cfg : Cfg) (sched : Schedule) (s : State)
    (h : s.enqueued.card ≤ cfg.num_workers) :
    ((stepOnce cfg sched s).state).enqueued.card ≤ cfg.num_workers := by
  have h1 : (empty_queue cfg sched s).enqueued.card ≤ cfg.num_workers := by
    rw [empty_queue_enqueued]; exact h
  have herase : ((empty_queue cfg sched s).enqueued.erase
      ((empty_queue cfg sched s).read_j, (empty_queue cfg sched s).read_i)).card
      ≤ cfg.num_workers :=
    le_trans (Finset.card_le_card (Finset.erase_subset _ _)) h1
  unfold stepOnce
  dsimp only
  split_ifs with hmem hint hint
  · exact windowCheck_card_le cfg _ (by simpa using herase)
  · exact herase
  · exact windowCheck_card_le cfg _ h1
  · exact fill_queue_card_le cfg _ h1

@[simp] theorem empty_queue_read_j (cfg : Cfg) (sched : Schedule) (s : State) :
    (empty_queue cfg sched s).read_j = s.read_j := rfl

@[simp] theorem empty_queue_read_i (cfg : Cfg) (sched : Schedule) (s : State) :
    (empty_queue cfg sched s).read_i = s.read_i := rfl

@[simp] theorem empty_queue_yield_j (cfg : Cfg) (sched : Schedule) (s : State) :
    (empty_queue cfg sched s).yield_j = s.yield_j := rfl

@[simp] theorem empty_queue_yield_i (cfg : Cfg) (sched : Schedule) (s : State) :
    (empty_queue cfg sched s).yield_i = s.yield_i := rfl

@[simp] theorem fill_queue_read_j (cfg : Cfg) (s : State) :
    (fill_queue cfg s).read_j = s.read_j := rfl

@[simp] theorem fill_queue_read_i (cfg : Cfg) (s : State) :
    (fill_queue cfg s).read_i = s.read_i := rfl

@[simp] theorem fill_queue_yield_j (cfg : Cfg) (s : State) :
    (fill_queue cfg s).yield_j = s.yield_j := rfl

@[simp] theorem fill_queue_yield_i (cfg : Cfg) (s : State) :
    (fill_queue cfg s).yield_i = s.yield_i := rfl

theorem wrapRead_yield_j (cfg : Cfg) (s : State) :
    (wrapRead cfg s).yield_j = s.yield_j := by
  unfold wrapRead
  split_ifs <;> rfl

theorem wrapRead_yield_i (cfg : Cfg) (s : State) :
    (wrapRead cfg s).yield_i = s.yield_i := by
  unfold wrapRead
  split_ifs <;> rfl

theorem wrapYield_read_j (cfg : Cfg) (s : State) :
    (wrapYield cfg s).read_j = s.read_j := by
  unfold wrapYield
  split_ifs <;> rfl

theorem wrapYield_read_i (cfg : Cfg) (s : State) :
    (wrapYield cfg s).read_i = s.read_i := by
  unfold wrapYield
  split_ifs <;> rfl

theorem wrapRead_remaining (cfg : Cfg) (s : State) :
    (wrapRead cfg s).remaining_reads = s.remaining_reads := by
  unfold wrapRead
  split_ifs <;> rfl

theorem wrapYield_remaining (cfg : Cfg) (s : State) :
    (wrapYield cfg s).remaining_reads = s.remaining_reads := by
  unfold wrapYield
  split_ifs <;> rfl

/-- A tile is yielded by the inner-loop body exactly at the current yield
cursor, which advances by one column. -/
theorem stepOnce_ret_yield (cfg : Cfg) (sched : Schedule) (s : State)
    {c : ℕ × ℕ} {t : Tile} {s' : State}
    (h : stepOnce cfg sched s = .ret c t s') :
    c = (s.yield_j, s.yield_i) ∧ s'.yield_j = s.yield_j
      ∧ s'.yield_i = s.yield_i + 1 := by
  unfold stepOnce windowCheck at h
  dsimp only at h
  split_ifs at h <;> (cases h; exact ⟨rfl, rfl, rfl⟩)

/-- A continuing inner-loop body leaves the yield cursor unchanged. -/
theorem stepOnce_cont_yield (cfg : Cfg) (sched : Schedule) (s : State)
    {s' : State} (h : stepOnce cfg sched s = .cont s') :
    s'.yield_j = s.yield_j ∧ s'.yield_i = s.yield_i := by
  unfold stepOnce windowCheck at h
  dsimp only at h
  split_ifs at h <;> (cases h; exact ⟨rfl, rfl⟩)

/-- Without an intermediate store, the tile a loop body returns is exactly
the read tile at the current read cursor, and the read cursor advances by
one column in lockstep with the yield cursor. -/
theorem stepOnce_ret_no_inter (cfg : Cfg) (sched : Schedule) (s : State)
    {c : ℕ × ℕ} {t : Tile} {s' : State}
    (hni : cfg.useIntermediate = false)
    (h : stepOnce cfg sched s = .ret c t s') :
    t = get_tile cfg (s.read_j, s.read_i) ∧ s'.read_j = s.read_j
      ∧ s'.read_i = s.read_i + 1 := by
  unfold stepOnce windowCheck at h
  dsimp only at h
  split_ifs at h <;>
    first
      | (cases h; exact ⟨rfl, rfl, rfl⟩)
      | exact StepRes.noConfusion h
      | simp_all

/-- Without an intermediate store, a continuing loop body leaves the read
cursor unchanged. -/
theorem stepOnce_cont_no_inter (cfg : Cfg) (sched : Schedule) (s : State)
    {s' : State} (hni : cfg.useIntermediate = false)
    (h : stepOnce cfg sched s = .cont s') :
    s'.read_j = s.read_j ∧ s'.read_i = s.read_i := by
  unfold stepOnce windowCheck at h
  dsimp only at h
  split_ifs at h <;>
    first
      | (cases h; exact ⟨rfl, rfl⟩)
      | exact StepRes.noConfusion h
      | simp_all

/-- Through any number of inner-loop iterations, a yielded tile carries
the yield cursor of the state the loop started from, advanced by one. -/
theorem innerLoop_yield (cfg : Cfg) (sched : Schedule) :
    ∀ (m : ℕ) (s : State) {c : ℕ × ℕ} {t : Tile} {s' : State},
      innerLoop cfg sched m s = .yielded c t s' →
      c = (s.yield_j, s.yield_i) ∧ s'.yield_j = s.yield_j
        ∧ s'.yield_i = s.yield_i + 1
  | 0, s, c, t, s', h => by simp [innerLoop] at h
  | m + 1, s, c, t, s', h => by
      rw [innerLoop] at h
      rcases hs : stepOnce cfg sched s with ⟨c0, t0, s0⟩ | s0 <;> rw [hs] at h
      · cases h
        exact stepOnce_ret_yield cfg sched s hs
      · have hy := stepOnce_cont_yield cfg sched s hs
        have ih := innerLoop_yield cfg sched m s0 h
        rw [hy.1, hy.2] at ih
        exact ih

/-- Through any number of inner-loop iterations without an intermediate
store, a yielded tile is the read tile at the read cursor of the state the
loop started from, and the read cursor advances by one. -/
theorem innerLoop_yield_no_inter (cfg : Cfg) (sched : Schedule)
    (hni : cfg.useIntermediate = false) :
    ∀ (m : ℕ) (s : State) {c : ℕ × ℕ} {t : Tile} {s' : State},
      innerLoop cfg sched m s = .yielded c t s' →
      t = get_tile cfg (s.read_j, s.read_i) ∧ s'.read_j = s.read_j
        ∧ s'.read_i = s.read_i + 1
  | 0, s, c, t, s', h => by simp [innerLoop] at h
  | m + 1, s, c, t, s', h => by
      rw [innerLoop] at h
      rcases hs : stepOnce cfg sched s with ⟨c0, t0, s0⟩ | s0 <;> rw [hs] at h
      · cases h
        exact stepOnce_ret_no_inter cfg sched s hni hs
      · have hr := stepOnce_cont_no_inter cfg sched s hni hs
        have ih := innerLoop_yield_no_inter cfg sched hni m s0 h
        rw [hr.1, hr.2] at ih
        exact ih

/-- The inner busy-wait loop either yields a tile or runs out of fuel; it
never raises `StopIteration` itself. -/
theorem innerLoop_ne_stopped (cfg : Cfg) (sched : Schedule) :
    ∀ (m : ℕ) (s : State), innerLoop cfg sched m s ≠ .stopped
  | 0, s => by simp [innerLoop]
  | m + 1, s => by
      rw [innerLoop]
      rcases hs : stepOnce cfg sched s with ⟨c0, t0, s0⟩ | s0
      · simp
      · exact innerLoop_ne_stopped cfg sched m s0

theorem rowMajorList_eq_enumFrom (rows cols : ℕ) :
    rowMajorList rows cols = enumFrom rows cols 0 := by
  unfold rowMajorList enumFrom
  rw [List.range_eq_range', Nat.sub_zero]

theorem enumFrom_nil (rows cols k : ℕ) (h : rows * cols ≤ k) :
    enumFrom rows cols k = [] := by
  unfold enumFrom
  rw [Nat.sub_eq_zero_of_le h]
  rfl

theorem enumFrom_cons (rows cols k : ℕ) (h : k < rows * cols) :
    enumFrom rows cols k = (k / cols, k % cols) :: enumFrom rows cols (k + 1) := by
  unfold enumFrom
  have hsub : rows * cols - k = (rows * cols - (k + 1)) + 1 := by omega
  rw [hsub, List.range'_succ]
  rfl

theorem wrapRead_yIdx (cfg : Cfg) (s : State) :
    yIdx cfg (wrapRead cfg s) = yIdx cfg s := by
  unfold yIdx
  rw [wrapRead_yield_j, wrapRead_yield_i]

/-- Wrapping the yield cursor preserves its linear position and, when the
grid has columns, leaves the column index strictly inside the grid. -/
theorem wrapYield_yIdx (cfg : Cfg) (s : State)
    (hle : s.yield_i ≤ (yield_tile_shape cfg).2) :
    yIdx cfg (wrapYield cfg s) = yIdx cfg s
      ∧ (0 < (yield_tile_shape cfg).2 →
          (wrapYield cfg s).yield_i < (yield_tile_shape cfg).2) := by
  unfold wrapYield yIdx
  split_ifs with hw
  · have hexp : (s.yield_j + 1) * (yield_tile_shape cfg).2
        = s.yield_j * (yield_tile_shape cfg).2 + (yield_tile_shape cfg).2 := by
      ring
    constructor
    · simp only
      omega
    · intro hc
      simpa using hc
  · exact ⟨rfl, fun _ => by omega⟩

/-- Master ordering lemma: from any state whose yield column index is in
range, a completed run yields exactly the row-major tail of the yield grid
starting at the cursor's linear position. -/
theorem runAux_coords (cfg : Cfg) (sched : Schedule)
    (hc : 0 < (yield_tile_shape cfg).2) :
    ∀ (fuel : ℕ) (s : State),
      s.yield_i ≤ (yield_tile_shape cfg).2 →
      (runAux cfg sched fuel s).2 = true →
      (runAux cfg sched fuel s).1.map Prod.fst
        = enumFrom (yield_tile_shape cfg).1 (yield_tile_shape cfg).2
            (yIdx cfg s)
  | 0, s => by
      intro _ hrun
      simp [runAux] at hrun
  | fuel + 1, s => by
      intro hle hrun
      have hidxR := wrapRead_yIdx cfg s
      have hleR : (wrapRead cfg s).yield_i ≤ (yield_tile_shape cfg).2 := by
        rw [wrapRead_yield_i]
        exact hle
      have hwy := wrapYield_yIdx cfg (wrapRead cfg s) hleR
      set sY := wrapYield cfg (wrapRead cfg s) with hsY
      have hidx : yIdx cfg sY = yIdx cfg s := by rw [hwy.1, hidxR]
      have hiY : sY.yield_i < (yield_tile_shape cfg).2 := hwy.2 hc
      rw [runAux] at hrun ⊢
      unfold nextCall at hrun ⊢
      dsimp only at hrun ⊢
      rw [← hsY] at hrun ⊢
      by_cases hstop : (yield_tile_shape cfg).1 ≤ sY.yield_j
      · rw [if_pos hstop] at hrun ⊢
        have hge : (yield_tile_shape cfg).1 * (yield_tile_shape cfg).2
            ≤ yIdx cfg s := by
          rw [← hidx]
          unfold yIdx
          calc (yield_tile_shape cfg).1 * (yield_tile_shape cfg).2
              ≤ sY.yield_j * (yield_tile_shape cfg).2 :=
                Nat.mul_le_mul_right _ hstop
            _ ≤ sY.yield_j * (yield_tile_shape cfg).2 + sY.yield_i :=
                Nat.le_add_right _ _
        simp [enumFrom_nil _ _ _ hge]
      · rw [if_neg hstop] at hrun ⊢
        rcases hloop : innerLoop cfg sched fuel (fill_queue cfg sY)
          with ⟨c, t, s'⟩ | _ | _
        · rw [hloop] at hrun
          have hy := innerLoop_yield cfg sched fuel _ hloop
          simp only [fill_queue_yield_j, fill_queue_yield_i] at hy
          have hrun' : (runAux cfg sched fuel s').2 = true := by
            simpa using hrun
          have hle' : s'.yield_i ≤ (yield_tile_shape cfg).2 := by
            rw [hy.2.2]
            omega
          have ih := runAux_coords cfg sched hc fuel s' hle' hrun'
          have hidx' : yIdx cfg s' = yIdx cfg s + 1 := by
            rw [← hidx]
            unfold yIdx
            rw [hy.2.1, hy.2.2]
            ring
          have hlt : yIdx cfg s
              < (yield_tile_shape cfg).1 * (yield_tile_shape cfg).2 := by
            rw [← hidx]
            unfold yIdx
            push_neg at hstop
            calc sY.yield_j * (yield_tile_shape cfg).2 + sY.yield_i
                < sY.yield_j * (yield_tile_shape cfg).2
                    + (yield_tile_shape cfg).2 := by omega
              _ = (sY.yield_j + 1) * (yield_tile_shape cfg).2 := by ring
              _ ≤ (yield_tile_shape cfg).1 * (yield_tile_shape cfg).2 :=
                  Nat.mul_le_mul_right _ hstop
          have hdiv : yIdx cfg s / (yield_tile_shape cfg).2 = sY.yield_j := by
            rw [← hidx]
            unfold yIdx
            rw [Nat.mul_comm sY.yield_j, Nat.mul_add_div hc,
              Nat.div_eq_of_lt hiY]
            omega
          have hmod : yIdx cfg s % (yield_tile_shape cfg).2 = sY.yield_i := by
            rw [← hidx]
            unfold yIdx
            rw [Nat.mul_comm sY.yield_j, Nat.mul_add_mod,
              Nat.mod_eq_of_lt hiY]
          rw [enumFrom_cons _ _ _ hlt, hdiv, hmod]
          dsimp only
          simp only [List.map_cons]
          rw [ih, hidx', hy.1]
        · exact absurd hloop (innerLoop_ne_stopped cfg sched fuel _)
        · rw [hloop] at hrun
          simp at hrun

/-- Equal read and yield tile sizes give identical read and yield grids. -/
theorem shapes_eq_of_ts_eq (cfg : Cfg)
    (heq : cfg.read_tile_size = cfg.yield_tile_size) :
    read_tiles_shape cfg = yield_tile_shape cfg := by
  unfold read_tiles_shape yield_tile_shape
  rw [heq]

/-- With identical grids, the cursor wraparounds at the top of `__next__`
keep the read cursor in lockstep with the yield cursor. -/
theorem wrap_lockstep (cfg : Cfg) (s : State)
    (heq : read_tiles_shape cfg = yield_tile_shape cfg)
    (hj : s.read_j = s.yield_j) (hi : s.read_i = s.yield_i) :
    (wrapYield cfg (wrapRead cfg s)).read_j
        = (wrapYield cfg (wrapRead cfg s)).yield_j
      ∧ (wrapYield cfg (wrapRead cfg s)).read_i
        = (wrapYield cfg (wrapRead cfg s)).yield_i := by
  by_cases h1 : (read_tiles_shape cfg).2 ≤ s.read_i
  · have h1y : (yield_tile_shape cfg).2 ≤ s.yield_i := by
      rw [← heq, ← hi]
      exact h1
    unfold wrapRead wrapYield
    rw [if_pos h1]
    rw [if_pos (show (yield_tile_shape cfg).2
      ≤ ({ s with read_i := 0, read_j := s.read_j + 1 } : State).yield_i
      from h1y)]
    exact ⟨by dsimp only; omega, rfl⟩
  · have h1y : ¬ (yield_tile_shape cfg).2 ≤ s.yield_i := by
      rw [← heq, ← hi]
      exact h1
    unfold wrapRead wrapYield
    rw [if_neg h1]
    rw [if_neg h1y]
    exact ⟨hj, hi⟩

/-- Master round-trip lemma for equal tile sizes (no intermediate): from
any state with the two cursors in lockstep, a completed run yields the
row-major tail of read tiles, each tile being exactly the clipped source
window at its coordinate. -/
theorem runAux_tiles (cfg : Cfg) (sched : Schedule)
    (hni : cfg.useIntermediate = false)
    (heq : cfg.read_tile_size = cfg.yield_tile_size)
    (hc : 0 < (yield_tile_shape cfg).2) :
    ∀ (fuel : ℕ) (s : State),
      s.yield_i ≤ (yield_tile_shape cfg).2 →
      s.read_j = s.yield_j → s.read_i = s.yield_i →
      (runAux cfg sched fuel s).2 = true →
      (runAux cfg sched fuel s).1
        = (enumFrom (yield_tile_shape cfg).1 (yield_tile_shape cfg).2
            (yIdx cfg s)).map fun c => (c, get_tile cfg c)
  | 0, s => by
      intro _ _ _ hrun
      simp [runAux] at hrun
  | fuel + 1, s => by
      intro hle hj hi hrun
      have hidxR := wrapRead_yIdx cfg s
      have hleR : (wrapRead cfg s).yield_i ≤ (yield_tile_shape cfg).2 := by
        rw [wrapRead_yield_i]
        exact hle
      have hwy := wrapYield_yIdx cfg (wrapRead cfg s) hleR
      have hlock := wrap_lockstep cfg s (shapes_eq_of_ts_eq cfg heq) hj hi
      set sY := wrapYield cfg (wrapRead cfg s) with hsY
      have hidx : yIdx cfg sY = yIdx cfg s := by rw [hwy.1, hidxR]
      have hiY : sY.yield_i < (yield_tile_shape cfg).2 := hwy.2 hc
      rw [runAux] at hrun ⊢
      unfold nextCall at hrun ⊢
      dsimp only at hrun ⊢
      rw [← hsY] at hrun ⊢
      by_cases hstop : (yield_tile_shape cfg).1 ≤ sY.yield_j
      · rw [if_pos hstop] at hrun ⊢
        have hge : (yield_tile_shape cfg).1 * (yield_tile_shape cfg).2
            ≤ yIdx cfg s := by
          rw [← hidx]
          unfold yIdx
          calc (yield_tile_shape cfg).1 * (yield_tile_shape cfg).2
              ≤ sY.yield_j * (yield_tile_shape cfg).2 :=
                Nat.mul_le_mul_right _ hstop
            _ ≤ sY.yield_j * (yield_tile_shape cfg).2 + sY.yield_i :=
                Nat.le_add_right _ _
        simp [enumFrom_nil _ _ _ hge]
      · rw [if_neg hstop] at hrun ⊢
        rcases hloop : innerLoop cfg sched fuel (fill_queue cfg sY)
          with ⟨c, t, s'⟩ | _ | _
        · rw [hloop] at hrun
          have hy := innerLoop_yield cfg sched fuel _ hloop
          have hrd := innerLoop_yield_no_inter cfg sched hni fuel _ hloop
          simp only [fill_queue_yield_j, fill_queue_yield_i,
            fill_queue_read_j, fill_queue_read_i] at hy hrd
          have hrun' : (runAux cfg sched fuel s').2 = true := by
            simpa using hrun
          have hle' : s'.yield_i ≤ (yield_tile_shape cfg).2 := by
            rw [hy.2.2]
            omega
          have hj' : s'.read_j = s'.yield_j := by
            rw [hrd.2.1, hy.2.1, hlock.1]
          have hi' : s'.read_i = s'.yield_i := by
            rw [hrd.2.2, hy.2.2, hlock.2]
          have ih := runAux_tiles cfg sched hni heq hc fuel s' hle' hj' hi'
            hrun'
          have hidx' : yIdx cfg s' = yIdx cfg s + 1 := by
            rw [← hidx]
            unfold yIdx
            rw [hy.2.1, hy.2.2]
            ring
          have hlt : yIdx cfg s
              < (yield_tile_shape cfg).1 * (yield_tile_shape cfg).2 := by
            rw [← hidx]
            unfold yIdx
            push_neg at hstop
            calc sY.yield_j * (yield_tile_shape cfg).2 + sY.yield_i
                < sY.yield_j * (yield_tile_shape cfg).2
                    + (yield_tile_shape cfg).2 := by omega
              _ = (sY.yield_j + 1) * (yield_tile_shape cfg).2 := by ring
              _ ≤ (yield_tile_shape cfg).1 * (yield_tile_shape cfg).2 :=
                  Nat.mul_le_mul_right _ hstop
          have hdiv : yIdx cfg s / (yield_tile_shape cfg).2 = sY.yield_j := by
            rw [← hidx]
            unfold yIdx
            rw [Nat.mul_comm sY.yield_j, Nat.mul_add_div hc,
              Nat.div_eq_of_lt hiY]
            omega
          have hmod : yIdx cfg s % (yield_tile_shape cfg).2 = sY.yield_i := by
            rw [← hidx]
            unfold yIdx
            rw [Nat.mul_comm sY.yield_j, Nat.mul_add_mod,
              Nat.mod_eq_of_lt hiY]
          have htile : t = get_tile cfg (sY.yield_j, sY.yield_i) := by
            rw [hrd.1, hlock.1, hlock.2]
          rw [enumFrom_cons _ _ _ hlt, hdiv, hmod]
          dsimp only
          simp only [List.map_cons]
          rw [ih, hidx', hy.1, htile]
        · exact absurd hloop (innerLoop_ne_stopped cfg sched fuel _)
        · rw [hloop] at hrun
          simp at hrun

@[simp] theorem empty_queue_remaining (cfg : Cfg) (sched : Schedule)
    (s : State) :
    (empty_queue cfg sched s).remaining_reads = s.remaining_reads := rfl

theorem fill_queue_of_nil_remaining (cfg : Cfg) (s : State)
    (h : s.remaining_reads = []) :
    (fill_queue cfg s).enqueued = s.enqueued
      ∧ (fill_queue cfg s).remaining_reads = [] := by
  unfold fill_queue
  rw [h]
  exact ⟨rfl, rfl⟩

theorem countNonzeroPos_of_w_zero (t : Tile) (channels : ℕ) (h : t.w = 0) :
    countNonzeroPos t channels = false := by
  unfold countNonzeroPos
  rw [h]
  simp

theorem windowTile_w_zero (cfg : Cfg) (s : State) (hW : cfg.frame.W = 0) :
    (windowTile cfg s).w = 0 := by
  unfold windowTile
  rw [hW]
  simp

/-- With an empty frame width, no reads are pending and none remain, so
one inner-loop iteration only spins: it drains nothing and fills
nothing. -/
theorem stepOnce_cont_of_empty (cfg : Cfg) (sched : Schedule) (s : State)
    (hW : cfg.frame.W = 0) (he : s.enqueued = ∅) (hr : s.reordering = ∅)
    (hrem : s.remaining_reads = []) :
    stepOnce cfg sched s = .cont (fill_queue cfg (empty_queue cfg sched s))
      ∧ (fill_queue cfg (empty_queue cfg sched s)).enqueued = ∅
      ∧ (fill_queue cfg (empty_queue cfg sched s)).reordering = ∅
      ∧ (fill_queue cfg (empty_queue cfg sched s)).remaining_reads = [] := by
  have h1r : (empty_queue cfg sched s).reordering = ∅ := by
    unfold empty_queue
    dsimp only
    have hbatch : ((sched s.drainCount).filter fun ji =>
        decide (ji ∈ s.enqueued) && !(decide (ji ∈ s.reordering))
          && !(cfg.failures ji)) = [] := by
      apply List.filter_eq_nil_iff.mpr
      intro a _
      rw [he]
      simp
    rw [hbatch, hr]
    simp
  have h1rem : (empty_queue cfg sched s).remaining_reads = [] := by
    rw [empty_queue_remaining]
    exact hrem
  have hfill := fill_queue_of_nil_remaining cfg _ h1rem
  refine ⟨?_, ?_, ?_, hfill.2⟩
  · unfold stepOnce
    dsimp only
    rw [h1r]
    rw [if_neg (by simp)]
    by_cases hint : cfg.useIntermediate
    · rw [if_pos hint]
      unfold windowCheck
      dsimp only
      rw [countNonzeroPos_of_w_zero _ _ (windowTile_w_zero cfg _ hW)]
      simp
    · rw [if_neg hint]
  · rw [hfill.1, empty_queue_enqueued]
    exact he
  · rw [fill_queue_reordering]
    exact h1r

/-- With an empty frame width and nothing dispatched, the inner loop can
never produce a tile: it spins until its fuel runs out. -/
theorem innerLoop_stalls_of_empty (cfg : Cfg) (sched : Schedule)
    (hW : cfg.frame.W = 0) :
    ∀ (m : ℕ) (s : State), s.enqueued = ∅ → s.reordering = ∅ →
      s.remaining_reads = [] → innerLoop cfg sched m s = .stalled
  | 0, s, _, _, _ => rfl
  | m + 1, s, he, hr, hrem => by
      obtain ⟨hstep, he', hr', hrem'⟩ :=
        stepOnce_cont_of_empty cfg sched s hW he hr hrem
      rw [innerLoop, hstep]
      exact innerLoop_stalls_of_empty cfg sched hW m _ he' hr' hrem'

theorem ceilDivNat_zero_left (b : ℕ) : ceilDivNat 0 b = 0 := by
  unfold ceilDivNat
  rcases Nat.eq_zero_or_pos b with hb | hb
  · rw [hb]
  · exact Nat.div_eq_of_lt (by omega)

theorem ceilDivNat_eq_zero_imp (a b : ℕ) (hb : 0 < b)
    (h : ceilDivNat a b = 0) : a = 0 := by
  unfold ceilDivNat at h
  rcases Nat.eq_zero_or_pos a with ha | ha
  · exact ha
  · exfalso
    have := Nat.le_div_iff_mul_le hb |>.mpr (by omega : 1 * b ≤ a + b - 1)
    omega

theorem rowMajorList_cols_zero (rows : ℕ) : rowMajorList rows 0 = [] := by
  simp [rowMajorList]

/-- With an empty yield grid (zero columns), a run from the fresh state
that reaches `StopIteration` yields nothing: the first call either stops at
once or the inner loop spins forever. -/
theorem runAux_of_cols_zero (cfg : Cfg) (sched : Schedule)
    (hyw : 0 < cfg.yield_tile_size.1)
    (hc : (yield_tile_shape cfg).2 = 0) :
    ∀ fuel, (runAux cfg sched fuel (initState cfg)).2 = true →
      (runAux cfg sched fuel (initState cfg)).1 = [] := by
  have hW : cfg.frame.W = 0 := ceilDivNat_eq_zero_imp _ _ hyw hc
  have hrcols : (read_tiles_shape cfg).2 = 0 := by
    unfold read_tiles_shape
    rw [hW]
    exact ceilDivNat_zero_left _
  intro fuel hrun
  cases fuel with
  | zero => simp [runAux] at hrun
  | succ n =>
      rw [runAux] at hrun ⊢
      unfold nextCall at hrun ⊢
      dsimp only at hrun ⊢
      by_cases hstop : (yield_tile_shape cfg).1
          ≤ (wrapYield cfg (wrapRead cfg (initState cfg))).yield_j
      · rw [if_pos hstop] at hrun ⊢
      · rw [if_neg hstop] at hrun ⊢
        have he : (wrapYield cfg (wrapRead cfg (initState cfg))).enqueued
            = ∅ := by
          rw [wrapYield_enqueued, wrapRead_enqueued]
          rfl
        have hr : (wrapYield cfg (wrapRead cfg (initState cfg))).reordering
            = ∅ := by
          rw [wrapYield_reordering, wrapRead_reordering]
          rfl
        have hrem :
            (wrapYield cfg (wrapRead cfg (initState cfg))).remaining_reads
              = [] := by
          rw [wrapYield_remaining, wrapRead_remaining]
          show rowMajorList (read_tiles_shape cfg).1 (read_tiles_shape cfg).2
            = []
          rw [hrcols]
          exact rowMajorList_cols_zero _
        obtain ⟨hfe, hfrem⟩ := fill_queue_of_nil_remaining cfg _ hrem
        have hstall := innerLoop_stalls_of_empty cfg sched hW n
          (fill_queue cfg (wrapYield cfg (wrapRead cfg (initState cfg))))
          (by rw [hfe]; exact he) (by rw [fill_queue_reordering]; exact hr)
          hfrem
        rw [hstall] at hrun
        simp at hrun

end MPTI

/-! ### Pending-set invariants (C6, C7) -/

/-- C6 counterexample: the claim says a coordinate is never simultaneously
in the `enqueued` set and a key of `reordering_dict`; but `empty_queue`
moves an arrived result into the map without removing its coordinate from
`enqueued` (removal happens only on consumption, line 194), so the
reachable state `sBoth` holds (0,1) in both at once. -/
theorem pending_and_map_intersect :
    MPTI.Reachable cfgBoth schedBoth sBoth
    ∧ (0, 1) ∈ sBoth.enqueued ∧ (0, 1) ∈ sBoth.reordering :=
  ⟨.drain (.fill (.wrapY (.wrapR .init))), by decide, by decide⟩

/-- C6 amended: `enqueued` holds the coordinates dispatched and not yet
consumed, so an arrived-but-unconsumed coordinate is in both the pending
set and the reordering map; the invariant that actually holds at every
point during iteration is containment — every key of the reordering map is
still a member of `enqueued` (equivalently, a coordinate is never in the
map without being in `enqueued`, and the truly in-flight coordinates are
`enqueued` minus the map keys). -/
theorem reordering_keys_subset_enqueued (cfg : Cfg) (sched : Schedule)
    (s : State) (h : MPTI.Reachable cfg sched s) :
    s.reordering ⊆ s.enqueued := by
  induction h with
  | init =>
      intro x hx
      simp [MPTI.initState] at hx
  | wrapR _ ih =>
      rw [MPTI.wrapRead_reordering, MPTI.wrapRead_enqueued]
      exact ih
  | wrapY _ ih =>
      rw [MPTI.wrapYield_reordering, MPTI.wrapYield_enqueued]
      exact ih
  | fill _ ih =>
      rw [MPTI.fill_queue_reordering]
      exact ih.trans (MPTI.fill_queue_enqueued_superset _ _)
  | drain _ ih => exact MPTI.empty_queue_reordering_subset _ _ _ ih
  | stepRet _ heq ih =>
      have hstep := MPTI.stepOnce_reordering_subset cfg sched _ ih
      rw [heq] at hstep
      exact hstep
  | stepCont _ heq ih =>
      have hstep := MPTI.stepOnce_reordering_subset cfg sched _ ih
      rw [heq] at hstep
      exact hstep

/-- C6 amended witness: at the concrete reachable state `sBoth` the
arrived coordinate (0,1), a key of the map, is still in `enqueued`. -/
theorem reordering_keys_subset_enqueued_witness : (0, 1) ∈ sBoth.enqueued :=
  reordering_keys_subset_enqueued cfgBoth schedBoth sBoth
    (.drain (.fill (.wrapY (.wrapR .init))))
    (by decide : (0, 1) ∈ sBoth.reordering)

/-- C7. At every point during iteration the pending set never exceeds the
configured worker budget: `fill_queue` dispatches only while strictly
below `num_workers`, and every other operation of the pipeline leaves the
pending set equal or smaller. -/
theorem pending_card_le_num_workers (cfg : Cfg) (sched : Schedule)
    (s : State) (h : MPTI.Reachable cfg sched s) :
    s.enqueued.card ≤ cfg.num_workers := by
  induction h with
  | init => simp [MPTI.initState]
  | wrapR _ ih => rw [MPTI.wrapRead_enqueued]; exact ih
  | wrapY _ ih => rw [MPTI.wrapYield_enqueued]; exact ih
  | fill _ ih => exact MPTI.fill_queue_card_le _ _ ih
  | drain _ ih => rw [MPTI.empty_queue_enqueued]; exact ih
  | stepRet _ heq ih =>
      have hstep := MPTI.stepOnce_card_le cfg sched _ ih
      rw [heq] at hstep
      exact hstep
  | stepCont _ heq ih =>
      have hstep := MPTI.stepOnce_card_le cfg sched _ ih
      rw [heq] at hstep
      exact hstep

/-- C7 witness: the concrete reachable state `sBoth` (both reads
dispatched, one arrived) respects the two-worker budget. -/
theorem pending_card_le_num_workers_witness :
    sBoth.enqueued.card ≤ cfgBoth.num_workers :=
  pending_card_le_num_workers cfgBoth schedBoth sBoth
    (.drain (.fill (.wrapY (.wrapR .init))))

/-! ### Constructor validation (C5) and `__iter__` behaviour (C10) -/

/-- C5. With positive tile dimensions (so that the grid-shape computation
of lines 138-145 does not raise first), construction raises the
configuration `ValueError` of lines 149-155 exactly when the defaulted
yield tile size differs from the read tile size and no intermediate store
is supplied; raising in `__init__` means no object is returned, which the
`Except` result models.  When the yield tile size is omitted it defaults
to the read tile size and construction succeeds, intermediate or not. -/
theorem init_config_validation (frame : Frame) (rts : ℕ × ℕ)
    (yts? : Option (ℕ × ℕ)) (nw : ℕ) (useInter : Bool)
    (failures : ℕ × ℕ → Bool)
    (hw : 0 < rts.1) (hh : 0 < rts.2)
    (hyw : 0 < (yts?.getD rts).1) (hyh : 0 < (yts?.getD rts).2) :
    (MPTI.init frame rts yts? nw useInter failures
        = .error .badConfig
      ↔ (rts ≠ yts?.getD rts ∧ useInter = false))
    ∧ (yts? = none →
        ∃ p, MPTI.init frame rts yts? nw useInter failures = .ok p
          ∧ p.1.yield_tile_size = rts) := by
  unfold MPTI.init
  rw [if_neg (by omega)]
  constructor
  · split_ifs with hcond
    · simp only [true_iff]
      exact hcond
    · simp only [reduceCtorEq, false_iff]
      exact hcond
  · intro hnone
    subst hnone
    rw [if_neg (by simp)]
    exact ⟨_, rfl, rfl⟩

/-- C5 witness: a concrete mismatched configuration without an
intermediate is rejected with the configuration error, and a concrete
omitted yield tile size defaults and succeeds. -/
theorem init_config_validation_witness :
    (MPTI.init { H := 4, W := 4, C := 1, px := fun _ _ _ => 1 } (2, 2)
        (some (1, 1)) 2 false (fun _ => false) = .error .badConfig)
    ∧ ∃ p, MPTI.init { H := 4, W := 4, C := 1, px := fun _ _ _ => 1 } (2, 2)
        none 2 false (fun _ => false) = .ok p ∧ p.1.yield_tile_size = (2, 2) :=
  ⟨(init_config_validation _ (2, 2) (some (1, 1)) 2 false _
      (by decide) (by decide) (by decide) (by decide)).1.mpr
      ⟨by decide, rfl⟩,
   (init_config_validation _ (2, 2) none 2 false _
      (by decide) (by decide) (by decide) (by decide)).2 rfl⟩

/-- C10. `__iter__` (lines 161-165) resets only the read cursor and leaves
the yield cursor, the pending set, the reordering map, the remaining-reads
list, the intermediate contents and the drain count unchanged; hence once
the iterator is exhausted (yield cursor past the last yield-grid row),
`__iter__` followed by `__next__` raises `StopIteration` immediately: the
iterator is single-use. -/
theorem iter_resets_read_cursor_only (cfg : Cfg) (sched : Schedule)
    (fuel : ℕ) (s : State)
    (hEx : (yield_tile_shape cfg).1 ≤ s.yield_j) :
    (MPTI.iter s).read_j = 0 ∧ (MPTI.iter s).read_i = 0
    ∧ (MPTI.iter s).yield_j = s.yield_j ∧ (MPTI.iter s).yield_i = s.yield_i
    ∧ (MPTI.iter s).enqueued = s.enqueued
    ∧ (MPTI.iter s).reordering = s.reordering
    ∧ (MPTI.iter s).remaining_reads = s.remaining_reads
    ∧ (MPTI.iter s).inter = s.inter
    ∧ (MPTI.iter s).drainCount = s.drainCount
    ∧ (MPTI.nextCall cfg sched fuel (MPTI.iter s)).isStopped = true := by
  refine ⟨rfl, rfl, rfl, rfl, rfl, rfl, rfl, rfl, rfl, ?_⟩
  unfold MPTI.nextCall
  have hstop : (yield_tile_shape cfg).1
      ≤ (MPTI.wrapYield cfg (MPTI.wrapRead cfg (MPTI.iter s))).yield_j := by
    unfold MPTI.wrapRead MPTI.wrapYield MPTI.iter
    split_ifs <;> simp_all <;> omega
  rw [if_pos hstop]
  rfl

/-- C10 witness: a concrete exhausted iterator state, re-entered through
`__iter__`, stops immediately on the next `__next__`. -/
theorem iter_resets_read_cursor_only_witness :
    ((yield_tile_shape
        { frame := { H := 2, W := 2, C := 1, px := fun _ _ _ => 1 }
          read_tile_size := (1, 1)
          yield_tile_size := (1, 1)
          num_workers := 2
          useIntermediate := false
          failures := fun _ => false }).1
      ≤ ({ MPTI.initState
            { frame := { H := 2, W := 2, C := 1, px := fun _ _ _ => 1 }
              read_tile_size := (1, 1)
              yield_tile_size := (1, 1)
              num_workers := 2
              useIntermediate := false
              failures := fun _ => false } with yield_j := 2 } : State).yield_j)
    ∧ (MPTI.nextCall
        { frame := { H := 2, W := 2, C := 1, px := fun _ _ _ => 1 }
          read_tile_size := (1, 1)
          yield_tile_size := (1, 1)
          num_workers := 2
          useIntermediate := false
          failures := fun _ => false } (fun _ => []) 5
        (MPTI.iter
          { MPTI.initState
              { frame := { H := 2, W := 2, C := 1, px := fun _ _ _ => 1 }
                read_tile_size := (1, 1)
                yield_tile_size := (1, 1)
                num_workers := 2
                useIntermediate := false
                failures := fun _ => false } with yield_j := 2 })).isStopped
        = true :=
  ⟨by decide,
   (iter_resets_read_cursor_only _ _ 5 _ (by decide)).2.2.2.2.2.2.2.2.2⟩

/-! ### Ordering (C1) and round-trip (C2) -/

theorem yIdx_initState (cfg : Cfg) : MPTI.yIdx cfg (MPTI.initState cfg) = 0 := by
  simp [MPTI.yIdx, MPTI.initState]

theorem div_lt_ceilDivNat (y H t : ℕ) (hy : y < H) (ht : 0 < t) :
    y / t < ceilDivNat H t := by
  by_contra hcon
  push_neg at hcon
  have h1 : ceilDivNat H t * t ≤ y / t * t := Nat.mul_le_mul_right t hcon
  have h2 : y / t * t ≤ y := Nat.div_mul_le_self y t
  have h3 := ceilDivNat_ge H t ht
  omega

theorem idx_lt_total (j i rows cols : ℕ) (hj : j < rows) (hi : i < cols) :
    j * cols + i < rows * cols :=
  calc j * cols + i < j * cols + cols := by omega
    _ = (j + 1) * cols := by ring
    _ ≤ rows * cols := Nat.mul_le_mul_right _ hj

theorem getD_map_range {α : Type} (F : ℕ → α) (T k : ℕ) (d : α)
    (hk : k < T) : ((List.range T).map F).getD k d = F k := by
  rw [List.getD_eq_getElem?_getD, List.getElem?_map, List.getElem?_range hk]
  rfl

/-- C1. For every configuration, worker count and fetch-completion order
(arrival schedule), if the pipeline iteration runs to `StopIteration`, the
sequence of yield-grid coordinates at which tiles were yielded is exactly
the row-major enumeration of the yield grid.  (A schedule that withholds
results forever makes the iteration spin in its busy-wait loop instead of
completing; it never yields out of order.) -/
theorem pipeline_yields_row_major (cfg : Cfg) (sched : Schedule) (fuel : ℕ)
    (hyw : 0 < cfg.yield_tile_size.1)
    (hrun : (MPTI.runAux cfg sched fuel (MPTI.initState cfg)).2 = true) :
    (MPTI.runAux cfg sched fuel (MPTI.initState cfg)).1.map Prod.fst
      = rowMajorList (yield_tile_shape cfg).1 (yield_tile_shape cfg).2 := by
  by_cases hc : 0 < (yield_tile_shape cfg).2
  · have h := MPTI.runAux_coords cfg sched hc fuel (MPTI.initState cfg)
      (Nat.zero_le _) hrun
    rw [h, yIdx_initState, MPTI.rowMajorList_eq_enumFrom]
  · have hc0 : (yield_tile_shape cfg).2 = 0 := by omega
    rw [MPTI.runAux_of_cols_zero cfg sched hyw hc0 fuel hrun, hc0,
      MPTI.rowMajorList_cols_zero]
    rfl

/-- C1 witness: the concrete run over `cfgRM` completes and yields its two
tiles at (0,0) then (0,1), the row-major enumeration of the 1×2 grid. -/
theorem pipeline_yields_row_major_witness :
    ((0 : ℕ) < cfgRM.yield_tile_size.1
      ∧ (MPTI.runAux cfgRM schedRM 10 (MPTI.initState cfgRM)).2 = true)
    ∧ (MPTI.runAux cfgRM schedRM 10 (MPTI.initState cfgRM)).1.map Prod.fst
        = rowMajorList (yield_tile_shape cfgRM).1 (yield_tile_shape cfgRM).2 :=
  ⟨⟨by decide, by decide⟩,
   pipeline_yields_row_major cfgRM schedRM 10 (by decide) (by decide)⟩

/-- C2 counterexample: with an intermediate store and differing tile
sizes, the run over `cfgRT` completes and yields its single window in
row-major order, but the window is emitted as soon as it holds any
non-zero sample — here after only read tile (0,0) was written — so its
sample at (0,1) is the intermediate default 0 whereas the source holds 2:
reassembling the yielded tiles does not reproduce the source. -/
theorem round_trip_fails_with_intermediate :
    (MPTI.runAux cfgRT schedRT 10 (MPTI.initState cfgRT)).2 = true
    ∧ (MPTI.runAux cfgRT schedRT 10 (MPTI.initState cfgRT)).1.map Prod.fst
        = rowMajorList (yield_tile_shape cfgRT).1 (yield_tile_shape cfgRT).2
    ∧ ((MPTI.runAux cfgRT schedRT 10
          (MPTI.initState cfgRT)).1.getD 0 dummyEntry).2.px 0 1 0 = 0
    ∧ cfgRT.frame.px 0 1 0 = 2 :=
  ⟨by decide, by decide, by decide, rfl⟩

/-- C2 amended: when the read tile size equals the yield tile size (no
intermediate store), a completed run — under every fetch-completion
order — yields exactly the row-major sequence of clipped source tiles:
the tile at linear position k covers yield-grid coordinate
(k / cols, k % cols), every in-bounds sample of the source appears at its
place in its tile, and edge tiles are clipped to the frame.  With an
intermediate store and differing tile sizes this reproduction guarantee
fails (see the counterexample: a window can be emitted while only partly
written, and an all-zero window is never emitted). -/
theorem round_trip_equal_tile_sizes (cfg : Cfg) (sched : Schedule)
    (fuel : ℕ) (hni : cfg.useIntermediate = false)
    (heq : cfg.read_tile_size = cfg.yield_tile_size)
    (htw : 0 < cfg.read_tile_size.1) (hth : 0 < cfg.read_tile_size.2)
    (hrun : (MPTI.runAux cfg sched fuel (MPTI.initState cfg)).2 = true) :
    (MPTI.runAux cfg sched fuel (MPTI.initState cfg)).1
      = (rowMajorList (yield_tile_shape cfg).1 (yield_tile_shape cfg).2).map
          (fun c => (c, get_tile cfg c))
    ∧ (∀ y x ch, y < cfg.frame.H → x < cfg.frame.W → ch < cfg.frame.C →
        (((MPTI.runAux cfg sched fuel (MPTI.initState cfg)).1.getD
            (y / cfg.read_tile_size.2 * (yield_tile_shape cfg).2
              + x / cfg.read_tile_size.1) dummyEntry).2).px
            (y % cfg.read_tile_size.2) (x % cfg.read_tile_size.1) ch
          = cfg.frame.px y x ch)
    ∧ (∀ k, k < (yield_tile_shape cfg).1 * (yield_tile_shape cfg).2 →
        ((MPTI.runAux cfg sched fuel (MPTI.initState cfg)).1.getD k
            dummyEntry).2.h
            = min ((k / (yield_tile_shape cfg).2 + 1) * cfg.read_tile_size.2)
                cfg.frame.H
              - k / (yield_tile_shape cfg).2 * cfg.read_tile_size.2
          ∧ ((MPTI.runAux cfg sched fuel (MPTI.initState cfg)).1.getD k
              dummyEntry).2.w
            = min ((k % (yield_tile_shape cfg).2 + 1) * cfg.read_tile_size.1)
                cfg.frame.W
              - k % (yield_tile_shape cfg).2 * cfg.read_tile_size.1) := by
  have hyw : 0 < cfg.yield_tile_size.1 := by rw [← heq]; exact htw
  have hcolseq : (yield_tile_shape cfg).2 = ceilDivNat cfg.frame.W
      cfg.read_tile_size.1 := by
    unfold yield_tile_shape
    rw [heq]
  have hrowseq : (yield_tile_shape cfg).1 = ceilDivNat cfg.frame.H
      cfg.read_tile_size.2 := by
    unfold yield_tile_shape
    rw [heq]
  have hlist : (MPTI.runAux cfg sched fuel (MPTI.initState cfg)).1
      = (rowMajorList (yield_tile_shape cfg).1 (yield_tile_shape cfg).2).map
          (fun c => (c, get_tile cfg c)) := by
    by_cases hc : 0 < (yield_tile_shape cfg).2
    · have h := MPTI.runAux_tiles cfg sched hni heq hc fuel
        (MPTI.initState cfg) (Nat.zero_le _) rfl rfl hrun
      rw [h, yIdx_initState, MPTI.rowMajorList_eq_enumFrom]
    · have hc0 : (yield_tile_shape cfg).2 = 0 := by omega
      rw [MPTI.runAux_of_cols_zero cfg sched hyw hc0 fuel hrun, hc0,
        MPTI.rowMajorList_cols_zero]
      rfl
  refine ⟨hlist, ?_, ?_⟩
  · intro y x ch hy hx _
    have hj : y / cfg.read_tile_size.2 < (yield_tile_shape cfg).1 := by
      rw [hrowseq]
      exact div_lt_ceilDivNat y _ _ hy hth
    have hi : x / cfg.read_tile_size.1 < (yield_tile_shape cfg).2 := by
      rw [hcolseq]
      exact div_lt_ceilDivNat x _ _ hx htw
    have hk := idx_lt_total _ _ _ _ hj hi
    rw [hlist]
    unfold rowMajorList
    rw [List.map_map, getD_map_range _ _ _ _ hk]
    have hdiv : (y / cfg.read_tile_size.2 * (yield_tile_shape cfg).2
        + x / cfg.read_tile_size.1) / (yield_tile_shape cfg).2
        = y / cfg.read_tile_size.2 := by
      rcases Nat.eq_zero_or_pos (yield_tile_shape cfg).2 with h0 | hpos
      · exact absurd (h0 ▸ hi) (Nat.not_lt_zero _)
      · rw [Nat.mul_comm, Nat.mul_add_div hpos, Nat.div_eq_of_lt hi]
        omega
    have hmod : (y / cfg.read_tile_size.2 * (yield_tile_shape cfg).2
        + x / cfg.read_tile_size.1) % (yield_tile_shape cfg).2
        = x / cfg.read_tile_size.1 := by
      rw [Nat.mul_comm, Nat.mul_add_mod, Nat.mod_eq_of_lt hi]
    dsimp only [Function.comp]
    rw [hdiv, hmod]
    unfold get_tile
    dsimp only
    congr 1
    · rw [Nat.mul_comm]
      exact Nat.div_add_mod y cfg.read_tile_size.2
    · rw [Nat.mul_comm]
      exact Nat.div_add_mod x cfg.read_tile_size.1
  · intro k hk
    rw [hlist]
    unfold rowMajorList
    rw [List.map_map, getD_map_range _ _ _ _ hk]
    exact ⟨rfl, rfl⟩

/-- C2 amended witness: the concrete run over `cfgRM` (2×3 frame, 2×2
tiles, non-exact multiple) reproduces the source sample at row 1,
column 2. -/
theorem round_trip_equal_tile_sizes_witness :
    ((MPTI.runAux cfgRM schedRM 10 (MPTI.initState cfgRM)).2 = true
      ∧ (1 : ℕ) < cfgRM.frame.H ∧ (2 : ℕ) < cfgRM.frame.W
      ∧ (0 : ℕ) < cfgRM.frame.C)
    ∧ (((MPTI.runAux cfgRM schedRM 10 (MPTI.initState cfgRM)).1.getD
          (1 / cfgRM.read_tile_size.2 * (yield_tile_shape cfgRM).2
            + 2 / cfgRM.read_tile_size.1) dummyEntry).2).px
        (1 % cfgRM.read_tile_size.2) (2 % cfgRM.read_tile_size.1) 0
      = cfgRM.frame.px 1 2 0 :=
  ⟨⟨by decide, by decide, by decide, by decide⟩,
   (round_trip_equal_tile_sizes cfgRM schedRM 10 rfl rfl (by decide)
      (by decide) (by decide)).2.1 1 2 0 (by decide) (by decide) (by decide)⟩

/-! ### The intermediate-window population test (C3) -/

/-- The `np.count_nonzero(tile) > 0` test holds exactly when some sample
of the window is non-zero. -/
theorem countNonzeroPos_iff (t : Tile) (channels : ℕ) :
    MPTI.countNonzeroPos t channels = true
      ↔ ∃ dy < t.h, ∃ dx < t.w, ∃ ch < channels, t.px dy dx ch ≠ 0 := by
  unfold MPTI.countNonzeroPos
  simp [List.any_eq_true, List.mem_range, bne_iff_ne]

/-- C3 counterexample: the claim says the intermediate window is returned
only when every sample is non-zero; but the code tests
`np.count_nonzero(tile) > 0` (line 230), so the 1×2 window holding samples
(1, 0) — which contains a zero sample — is returned and the yield cursor
advanced. -/
theorem window_with_zero_sample_is_returned :
    (MPTI.windowCheck cfgRT sWC).isRet = true
    ∧ (MPTI.windowTile cfgRT sWC).px 0 1 0 = 0
    ∧ (MPTI.windowTile cfgRT sWC).h = 1
    ∧ (MPTI.windowTile cfgRT sWC).w = 2
    ∧ cfgRT.frame.C = 1 :=
  ⟨by decide, by decide, by decide, by decide, rfl⟩

/-- C3 amended: with an intermediate store, the step attempt of lines
217-232 (invoked by every iteration of the inner loop, `MPTI.stepOnce`)
advances the yield cursor and returns the window read from the
intermediate at the current yield-grid coordinate if and only if at least
one sample of that window is non-zero; a window whose samples are all zero
is treated as not yet populated and is not yielded on that step. -/
theorem windowCheck_returns_iff_some_nonzero (cfg : Cfg) (s : State) :
    ((MPTI.windowCheck cfg s).isRet = true
      ↔ ∃ dy < (MPTI.windowTile cfg s).h, ∃ dx < (MPTI.windowTile cfg s).w,
          ∃ ch < cfg.frame.C, (MPTI.windowTile cfg s).px dy dx ch ≠ 0)
    ∧ (∀ c t s', MPTI.windowCheck cfg s = .ret c t s' →
        c = (s.yield_j, s.yield_i) ∧ t = MPTI.windowTile cfg s
          ∧ s'.yield_j = s.yield_j ∧ s'.yield_i = s.yield_i + 1
          ∧ s'.read_j = s.read_j ∧ s'.read_i = s.read_i) := by
  constructor
  · rw [← countNonzeroPos_iff (MPTI.windowTile cfg s) cfg.frame.C]
    unfold MPTI.windowCheck
    dsimp only
    split_ifs with hnz <;> simp [MPTI.StepRes.isRet, hnz]
  · intro c t s' h
    unfold MPTI.windowCheck at h
    dsimp only at h
    split_ifs at h
    cases h
    exact ⟨rfl, rfl, rfl, rfl, rfl, rfl⟩

/-- C3 amended witness: the window of `sWC` has a non-zero sample, so the
step returns it. -/
theorem windowCheck_returns_iff_some_nonzero_witness :
    (MPTI.windowCheck cfgRT sWC).isRet = true :=
  (windowCheck_returns_iff_some_nonzero cfgRT sWC).1.mpr
    ⟨0, by decide, 0, by decide, 0, by decide, by decide⟩

/-! ### Worker read failures (C4) -/

/-- When every pending worker has died and no reads remain, the inner loop
can only spin: nothing ever arrives on the channel, and no error value
exists anywhere in the pipeline state to be re-raised. -/
theorem innerLoop_stalls_of_failures (cfg : Cfg) (sched : Schedule)
    (hni : cfg.useIntermediate = false) :
    ∀ (m : ℕ) (s : State), (∀ ji ∈ s.enqueued, cfg.failures ji = true) →
      s.reordering = ∅ → s.remaining_reads = [] →
      MPTI.innerLoop cfg sched m s = .stalled
  | 0, s, _, _, _ => rfl
  | m + 1, s, hfail, hr, hrem => by
      have h1r : (MPTI.empty_queue cfg sched s).reordering = ∅ := by
        unfold MPTI.empty_queue
        dsimp only
        have hbatch : ((sched s.drainCount).filter fun ji =>
            decide (ji ∈ s.enqueued) && !(decide (ji ∈ s.reordering))
              && !(cfg.failures ji)) = [] := by
          apply List.filter_eq_nil_iff.mpr
          intro a _
          by_cases ha : a ∈ s.enqueued
          · simp [hfail a ha]
          · simp [ha]
        rw [hbatch, hr]
        simp
      have hstep : MPTI.stepOnce cfg sched s
          = .cont (MPTI.fill_queue cfg (MPTI.empty_queue cfg sched s)) := by
        unfold MPTI.stepOnce
        dsimp only
        rw [h1r]
        rw [if_neg (by simp)]
        rw [if_neg (by rw [hni]; simp)]
      have hfill := MPTI.fill_queue_of_nil_remaining cfg
        (MPTI.empty_queue cfg sched s)
        (by rw [MPTI.empty_queue_remaining]; exact hrem)
      rw [MPTI.innerLoop, hstep]
      exact innerLoop_stalls_of_failures cfg sched hni m _
        (by rw [hfill.1, MPTI.empty_queue_enqueued]; exact hfail)
        (by rw [MPTI.fill_queue_reordering]; exact h1r)
        hfill.2

/-- C4 (code-bug evidence). If the fetch task for coordinate (0,0) fails,
then for every fetch-completion order and every amount of waiting the
pipeline yields nothing and never reaches `StopIteration`: the run result
is always `([], false)` — the coordinator spins in its sleep loop forever.
No error is surfaced on any drain: `empty_queue` (lines 240-244) only
moves queued results and has no error path at all, so a worker-local read
failure is silently dropped, contradicting the claim that it is re-raised
on the next drain. -/
theorem failed_fetch_stalls_pipeline (sched : Schedule) (fuel : ℕ) :
    MPTI.runAux cfgFail sched fuel (MPTI.initState cfgFail) = ([], false)
    ∧ (MPTI.empty_queue cfgFail sched
        (MPTI.fill_queue cfgFail (MPTI.initState cfgFail))).reordering = ∅
    ∧ (MPTI.fill_queue cfgFail (MPTI.initState cfgFail)).enqueued
        = {(0, 0)} := by
  refine ⟨?_, ?_, by decide⟩
  · cases fuel with
    | zero => rfl
    | succ n =>
        rw [MPTI.runAux]
        unfold MPTI.nextCall
        dsimp only
        rw [if_neg (by decide)]
        rw [innerLoop_stalls_of_failures cfgFail sched rfl n _
          (by decide) (by decide) (by decide)]
  · unfold MPTI.empty_queue
    dsimp only
    have hbatch : ∀ (l : List (ℕ × ℕ)), (l.filter fun ji =>
        decide (ji ∈ (MPTI.fill_queue cfgFail (MPTI.initState cfgFail)).enqueued)
          && !(decide (ji ∈ (MPTI.fill_queue cfgFail
                (MPTI.initState cfgFail)).reordering))
          && !(cfgFail.failures ji)) = [] := by
      intro l
      apply List.filter_eq_nil_iff.mpr
      intro a _
      by_cases ha : a = (0, 0)
      · subst ha
        simp [cfgFail]
      · have : a ∉ (MPTI.fill_queue cfgFail (MPTI.initState cfgFail)).enqueued := by
          intro hmem
          apply ha
          have h1 : (MPTI.fill_queue cfgFail (MPTI.initState cfgFail)).enqueued
              = {(0, 0)} := by decide
          rw [h1] at hmem
          simpa using hmem
        simp [this]
    rw [hbatch]
    simp
    decide

/-- C8 witness: the concrete instance of the spec scenario, a 1000-row,
1000-column frame with 512-pixel tiles, has grid shape (2, 2). -/
theorem grid_shape_is_ceiling_witness :
    (0 : ℕ) < 512 ∧
    ({ frame := { H := 1000, W := 1000, C := 3, px := fun _ _ _ => 1 }
       read_tile_size := (512, 512)
       yield_tile_size := (512, 512)
       num_workers := 3
       useIntermediate := false
       failures := fun _ => false } : Cfg).frame.H
      ≤ (read_tiles_shape
          { frame := { H := 1000, W := 1000, C := 3, px := fun _ _ _ => 1 }
            read_tile_size := (512, 512)
            yield_tile_size := (512, 512)
            num_workers := 3
            useIntermediate := false
            failures := fun _ => false }).1 * 512 :=
  ⟨by decide,
   (grid_shape_is_ceiling _ (by decide) (by decide) (by decide) (by decide)).1.1⟩

end Wsic
